import Mathlib

/-!
Verification of the atopile core: a shallow embedding of
`src/atopile/expressions.py` (RangedValue interval arithmetic over pint-style
quantities, deferred Expressions over Symbols, and the expression-pool
simplifier) and of `src/atopile/model2/flatten.py` (the hierarchical
flattening algorithm `build`/`_build`).

Python floats are modelled as exact rationals (`ℚ`).  Python closures
(`Expression.lambda_`, the closures created by `Expression.substitute` and
`defer_operation_factory`) are defunctionalised into the first-order syntax
`Lam`, whose evaluator `evalLam` performs exactly the computation the
corresponding closure performs.  Python exceptions are modelled by
`Except Err`.  Recursions whose termination depends on run-time data
(symbol chains through a context, the pool visitor, tree walks) take an
explicit fuel argument; fuel exhaustion is the distinguished error
`Err.outOfFuel`, which no claim identifies with a Python behaviour.
-/

attribute [local semireducible] Rat.add Rat.mul Rat.sub Rat.inv

namespace Atopile

/-- The Python exceptions / error situations the embedded code can raise. -/
inductive Err where
  /-- `KeyError` from a mapping lookup. -/
  | keyError
  /-- pint `DimensionalityError` from converting between incompatible units. -/
  | dimensionality
  /-- `ZeroDivisionError`. -/
  | zeroDivision
  /-- `ValueError("Exponent must be a constant valueless quantity")`, or a
  non-integer exponent (a restriction of this model, see `Quantity.zpowQ`). -/
  | invalidExponent
  /-- `ValueError("Substitution contains symbols not in the expression")`. -/
  | invalidSubstitution
  /-- the `assert not (set(context) & set(constants))` failure in
  `Expression.substitute._new_lambda`. -/
  | nameCollision
  /-- `AttributeError` from reading a missing attribute (e.g. `.symbols` on a
  `Symbol`). -/
  | attributeError
  /-- `ValueError("Circular dependency detected")`. -/
  | circularDependency
  /-- `ValueError("Unknown value type")`. -/
  | unknownValueType
  /-- `IndexError` from indexing an empty sequence. -/
  | indexError
  /-- a failing `assert` statement. -/
  | assertionFailed
  /-- fuel exhaustion; an artefact of the embedding, not of the Python code. -/
  | outOfFuel
deriving DecidableEq

/-! ## Units and quantities (model of the pint objects the code consumes)

A pint unit is modelled by its physical dimension (collapsed to a single
integer exponent, which suffices for compatibility checks and products) and
its scale factor relative to the base unit of that dimension.  A pint
quantity is a rational magnitude together with a unit.  Conversion `to`
fails on incompatible dimensions, exactly as pint raises
`DimensionalityError`. -/

structure Uom where
  dim : ℤ
  factor : ℚ
deriving DecidableEq

/-- `_UNITLESS = pint.Unit("")`. -/
def UNITLESS : Uom := ⟨0, 1⟩

/-- pint's `unit.dimensionless`. -/
def Uom.dimensionless (u : Uom) : Bool := u.dim == 0

structure Quantity where
  mag : ℚ
  unit : Uom
deriving DecidableEq

/-- `quantity.to(unit)`: convert to another unit, `DimensionalityError` if
the dimensions differ. -/
def Quantity.to (q : Quantity) (u : Uom) : Except Err Quantity :=
  if q.unit.dim = u.dim then .ok ⟨q.mag * q.unit.factor / u.factor, u⟩
  else .error .dimensionality

/-- pint `q1 + q2`: converts the right operand into the left operand's
units. -/
def Quantity.add (a b : Quantity) : Except Err Quantity := do
  let b' ← b.to a.unit
  .ok ⟨a.mag + b'.mag, a.unit⟩

/-- pint `q1 - q2`. -/
def Quantity.sub (a b : Quantity) : Except Err Quantity := do
  let b' ← b.to a.unit
  .ok ⟨a.mag - b'.mag, a.unit⟩

/-- pint `q1 * q2`: magnitudes multiply, dimensions and factors multiply. -/
def Quantity.mul (a b : Quantity) : Quantity :=
  ⟨a.mag * b.mag, ⟨a.unit.dim + b.unit.dim, a.unit.factor * b.unit.factor⟩⟩

/-- pint `q1 / q2`; `ZeroDivisionError` on a zero divisor magnitude. -/
def Quantity.div (a b : Quantity) : Except Err Quantity :=
  if b.mag = 0 then .error .zeroDivision
  else .ok ⟨a.mag / b.mag, ⟨a.unit.dim - b.unit.dim, a.unit.factor / b.unit.factor⟩⟩

/-- pint `q ** e` for an integer exponent.  Python also supports real
exponents on floats; the model restricts the exponent to ℤ, which is all the
verified claims need. -/
def Quantity.zpowQ (a : Quantity) (n : ℤ) : Except Err Quantity :=
  if a.mag = 0 ∧ n < 0 then .error .zeroDivision
  else .ok ⟨a.mag ^ n, ⟨a.unit.dim * n, a.unit.factor ^ n⟩⟩

/-- pint `q1 < q2` (converts the right operand to the left's units). -/
def Quantity.ltQ (a b : Quantity) : Except Err Bool := do
  let b' ← b.to a.unit
  .ok (decide (a.mag < b'.mag))

/-- pint `q1 > q2`. -/
def Quantity.gtQ (a b : Quantity) : Except Err Bool := do
  let b' ← b.to a.unit
  .ok (decide (a.mag > b'.mag))

/-- The fold of Python `min(list)` over quantities: replace the current
minimum whenever a later element compares strictly less. -/
def qtyFoldMin (cur : Quantity) : List Quantity → Except Err Quantity
  | [] => .ok cur
  | x :: rest => do
      let lt ← x.ltQ cur
      qtyFoldMin (if lt then x else cur) rest

/-- Python `min(list)` over quantities: keeps the first element under
ties. -/
def qtyListMin : List Quantity → Except Err Quantity
  | [] => .error .keyError
  | q :: qs => qtyFoldMin q qs

/-- The fold of Python `max(list)` over quantities. -/
def qtyFoldMax (cur : Quantity) : List Quantity → Except Err Quantity
  | [] => .ok cur
  | x :: rest => do
      let gt ← x.gtQ cur
      qtyFoldMax (if gt then x else cur) rest

/-- Python `max(list)` over quantities. -/
def qtyListMax : List Quantity → Except Err Quantity
  | [] => .error .keyError
  | q :: qs => qtyFoldMax q qs

/-- `_best_units(qty_a, qty_b)`: pick whichever unit renders the shorter
magnitude string when the other quantity is converted into it.  Python
formats a float; the model formats the exact rational — the claims never
depend on which of the two units wins. -/
def best_units (qty_a qty_b : Quantity) : Except Err Uom := do
  let a' ← qty_a.to qty_b.unit
  let b' ← qty_b.to qty_a.unit
  if (toString a'.mag).length > (toString b'.mag).length then .ok qty_a.unit
  else .ok qty_b.unit

/-! ## RangedValue -/

structure RangedValue where
  unit : Uom
  pretty_unit : Option String
  min_val : ℚ
  max_val : ℚ
deriving DecidableEq

/-- `Union[float, int, pint.Quantity]`, the endpoint argument type of
`RangedValue.__init__`. -/
inductive NumQ where
  | num (q : ℚ)
  | qty (q : Quantity)
deriving DecidableEq

def NumQ.qtyPart : NumQ → Option Quantity
  | .num _ => none
  | .qty q => some q

/-- The unit-inference chain of `RangedValue.__init__` (lines 72-81) when no
explicit unit is given.  NOTE the source bug kept here: the second `elif` on
line 78 re-tests `isinstance(val_a, pint.Quantity)` instead of `val_b`, so
the `self.unit = val_b.units` branch (line 79) is dead and a
quantity-as-second-endpoint-only falls through to `_UNITLESS`. -/
def inferUnit (val_a val_b : NumQ) : Except Err Uom :=
  match val_a.qtyPart, val_b.qtyPart with
  | some qa, some qb => best_units qa qb
  | some qa, none => .ok qa.unit
  | none, _ => .ok UNITLESS

/-- Magnitude of an endpoint in the resolved unit (`val_a.to(self.unit).magnitude`
for quantities, the raw number otherwise). -/
def NumQ.toMag (v : NumQ) (u : Uom) : Except Err ℚ :=
  match v with
  | .num q => .ok q
  | .qty q => (q.to u).map (·.mag)

/-- `RangedValue.__init__(val_a, val_b=None, unit=None, pretty_unit=None)`. -/
def RangedValue.make (val_a : NumQ) (val_bIn : Option NumQ) (unitIn : Option Uom)
    (pretty_unit : Option String) : Except Err RangedValue := do
  let val_b := val_bIn.getD val_a
  let unitE : Except Err Uom :=
    match unitIn with
    | some u => .ok u
    | none => inferUnit val_a val_b
  let unit ← unitE
  let val_a_mag ← val_a.toMag unit
  let val_b_mag ← val_b.toMag unit
  .ok ⟨unit, pretty_unit, min val_a_mag val_b_mag, max val_a_mag val_b_mag⟩

def RangedValue.nominal (v : RangedValue) : ℚ := (v.min_val + v.max_val) / 2

def RangedValue.tolerance (v : RangedValue) : ℚ := (v.max_val - v.min_val) / 2

def RangedValue.min_qty (v : RangedValue) : Quantity := ⟨v.min_val, v.unit⟩

def RangedValue.max_qty (v : RangedValue) : Quantity := ⟨v.max_val, v.unit⟩

/-- `Union["RangedValue", float, int]`, the operand type of the arithmetic
dunder methods. -/
inductive RVN where
  | rv (v : RangedValue)
  | num (q : ℚ)
deriving DecidableEq

/-- `RangedValue._ensure(thing)`: wrap a bare number as
`cls(thing, thing, _UNITLESS)`. -/
def RangedValue.ensure : RVN → RangedValue
  | .rv v => v
  | .num q => ⟨UNITLESS, none, min q q, max q q⟩

/-- `RangedValue.__mul__` (also `__rmul__`): all four endpoint products,
then min/max. -/
def RangedValue.mulOp (a : RangedValue) (other : RVN) : Except Err RangedValue := do
  let o := RangedValue.ensure other
  let new_values := [a.min_qty.mul o.min_qty, a.min_qty.mul o.max_qty,
                     a.max_qty.mul o.min_qty, a.max_qty.mul o.max_qty]
  let mn ← qtyListMin new_values
  let mx ← qtyListMax new_values
  RangedValue.make (.qty mn) (some (.qty mx)) none none

/-- `RangedValue._do_truediv(numerator, denominator)`. -/
def RangedValue.do_truediv (numerator denominator : RVN) : Except Err RangedValue := do
  let n := RangedValue.ensure numerator
  let d := RangedValue.ensure denominator
  let v1 ← n.min_qty.div d.min_qty
  let v2 ← n.min_qty.div d.max_qty
  let v3 ← n.max_qty.div d.min_qty
  let v4 ← n.max_qty.div d.max_qty
  let mn ← qtyListMin [v1, v2, v3, v4]
  let mx ← qtyListMax [v1, v2, v3, v4]
  RangedValue.make (.qty mn) (some (.qty mx)) none none

/-- `RangedValue.__truediv__`. -/
def RangedValue.truedivOp (a : RangedValue) (other : RVN) : Except Err RangedValue :=
  RangedValue.do_truediv (.rv a) other

/-- `RangedValue.__rtruediv__`. -/
def RangedValue.rtruedivOp (a : RangedValue) (other : RVN) : Except Err RangedValue :=
  RangedValue.do_truediv other (.rv a)

/-- `RangedValue.__add__` (also `__radd__`): endpoint-wise min+min, max+max. -/
def RangedValue.addOp (a : RangedValue) (other : RVN) : Except Err RangedValue := do
  let o := RangedValue.ensure other
  let mn ← a.min_qty.add o.min_qty
  let mx ← a.max_qty.add o.max_qty
  RangedValue.make (.qty mn) (some (.qty mx)) none none

/-- `RangedValue.__sub__`: min−other.max, max−other.min. -/
def RangedValue.subOp (a : RangedValue) (other : RVN) : Except Err RangedValue := do
  let o := RangedValue.ensure other
  let mn ← a.min_qty.sub o.max_qty
  let mx ← a.max_qty.sub o.min_qty
  RangedValue.make (.qty mn) (some (.qty mx)) none none

/-- `RangedValue.__rsub__` as written in the source: it returns
`self.__sub__(other)` (it does not flip the operands). -/
def RangedValue.rsubOp (a : RangedValue) (other : RVN) : Except Err RangedValue :=
  RangedValue.subOp a other

/-- `RangedValue.__neg__`: `RangedValue(-max_qty, -min_qty, unit, pretty_unit)`. -/
def RangedValue.negOp (a : RangedValue) : Except Err RangedValue :=
  RangedValue.make (.qty ⟨-a.max_val, a.unit⟩) (some (.qty ⟨-a.min_val, a.unit⟩))
    (some a.unit) a.pretty_unit

/-- `RangedValue.__pow__`: the exponent must be a constant dimensionless
quantity; applied endpoint-wise. -/
def RangedValue.powOp (a : RangedValue) (other : RVN) : Except Err RangedValue := do
  let eE : Except Err ℚ :=
    match other with
    | .rv o =>
        if o.unit.dimensionless ∧ o.min_val = o.max_val then .ok o.min_val
        else .error .invalidExponent
    | .num q => .ok q
  let e ← eE
  let nE : Except Err ℤ := if e.den = 1 then .ok e.num else .error .invalidExponent
  let n ← nE
  let mn ← a.min_qty.zpowQ n
  let mx ← a.max_qty.zpowQ n
  RangedValue.make (.qty mn) (some (.qty mx)) none none

/-! ## Symbols, Expressions and deferred evaluation

`NumericishTypes = Union[Expression, RangedValue, float, int, Symbol]` is the
inductive `Numericish`.  A `Symbol` is its hashable key (a string address).
An `Expression` is its declared symbol set together with its `lambda_`
closure; the closures that actually occur in the code (constant closures
from `from_numericish`, a `Symbol` used as a closure, the closures built by
`defer_operation_factory`, and `_new_lambda` built by `substitute`) are the
constructors of `Lam`, and `evalLam` computes what each closure computes. -/

/-- The binary operators that `defer_operation_factory` and the RangedValue
dunder methods are invoked with. -/
inductive Op where
  | add
  | sub
  | mul
  | div
deriving DecidableEq

mutual
inductive Numericish where
  | num (q : ℚ)
  | rv (v : RangedValue)
  | sym (key : String)
  | expr (e : Expression)

inductive Expression where
  | mk (symbols : List String) (lambda_ : Lam)

inductive Lam where
  /-- `lambda context: RangedValue(thing, thing)` from `from_numericish` on a
  raw number. -/
  | constNum (q : ℚ)
  /-- `lambda context: thing` from `from_numericish` on a `RangedValue`. -/
  | constRV (v : RangedValue)
  /-- a `Symbol` used as an expression's `lambda_` (its `__call__`). -/
  | symLam (key : String)
  /-- the closures built by `defer_operation_factory`: resolve whichever
  captured operands are callable against the context, then apply the
  operator. -/
  | binop (op : Op) (lhs rhs : Numericish)
  /-- `_new_lambda` built by `Expression.substitute`: check that the outer
  context does not collide with the substituted constants, extend the
  context with the constants, evaluate each callable substitution against
  the growing context, then run the original closure. -/
  | subst (inner : Lam) (constants : List (String × Numericish))
      (callables : List (String × Numericish))
end

def Expression.symbols : Expression → List String
  | .mk s _ => s

def Expression.lambda_ : Expression → Lam
  | .mk _ l => l

/-- Python `callable(value)` on a numericish value: `Expression` and
`Symbol` define `__call__`, numbers and RangedValues do not. -/
def Numericish.callable : Numericish → Bool
  | .sym _ => true
  | .expr _ => true
  | _ => false

/-- A fully evaluated (non-callable) numericish value. -/
inductive Val where
  | num (q : ℚ)
  | rv (v : RangedValue)
deriving DecidableEq

def Val.toNumericish : Val → Numericish
  | .num q => .num q
  | .rv v => .rv v

/-- The `context` mappings threaded through evaluation (`Mapping[str,
NumericishTypes]`), with first-match lookup: a prepended entry shadows. -/
abbrev Ctx := List (String × Numericish)

def ctxFind (ctx : Ctx) (k : String) : Except Err Numericish :=
  match List.lookup k ctx with
  | some v => .ok v
  | none => .error .keyError

/-- The dynamic dispatch of a Python binary operator over the numeric-ish
runtime values: two raw numbers compute directly; a `RangedValue` on the
left dispatches to its dunder method; a raw number on the left with a
`RangedValue` on the right dispatches to the reflected method (`__radd__`,
`__rsub__`, `__rmul__`, `__rtruediv__`). -/
def applyOp (op : Op) (l r : Val) : Except Err Val :=
  match l, r with
  | .num a, .num b =>
      match op with
      | .add => .ok (.num (a + b))
      | .sub => .ok (.num (a - b))
      | .mul => .ok (.num (a * b))
      | .div => if b = 0 then .error .zeroDivision else .ok (.num (a / b))
  | .rv a, r =>
      let o : RVN := match r with | .num q => .num q | .rv v => .rv v
      (match op with
       | .add => a.addOp o
       | .sub => a.subOp o
       | .mul => a.mulOp o
       | .div => a.truedivOp o).map .rv
  | .num a, .rv b =>
      (match op with
       | .add => b.addOp (.num a)
       | .sub => b.rsubOp (.num a)
       | .mul => b.mulOp (.num a)
       | .div => b.rtruedivOp (.num a)).map .rv

mutual
/-- Evaluate a defunctionalised closure against a context — the body of the
corresponding Python lambda. -/
def evalLam : Nat → Lam → Ctx → Except Err Val
  | 0, _, _ => .error .outOfFuel
  | fuel + 1, lam, ctx =>
    match lam with
    | .constNum q => (RangedValue.make (.num q) (some (.num q)) none none).map .rv
    | .constRV v => .ok (.rv v)
    | .symLam key => callSymbol fuel key ctx
    | .binop op lhs rhs => do
        let lv ← resolveOperand fuel lhs ctx
        let rv ← resolveOperand fuel rhs ctx
        applyOp op lv rv
    | .subst inner constants callables =>
        if constants.any (fun kv => (List.lookup kv.1 ctx).isSome) then
          .error .nameCollision
        else do
          let ctx1 : Ctx := constants ++ ctx
          let ctx2 ← evalCallables fuel callables ctx1
          evalLam fuel inner ctx2
termination_by structural fuel _ _ => fuel

/-- An operand captured by a `defer_operation_factory` closure: invoked if it
is callable, used as-is otherwise. -/
def resolveOperand : Nat → Numericish → Ctx → Except Err Val
  | _, .num q, _ => .ok (.num q)
  | _, .rv v, _ => .ok (.rv v)
  | 0, _, _ => .error .outOfFuel
  | fuel + 1, n, ctx => callNumericish fuel n ctx
termination_by structural fuel _ _ => fuel

/-- Invoke a callable numericish value (`thing(context)`). -/
def callNumericish : Nat → Numericish → Ctx → Except Err Val
  | 0, _, _ => .error .outOfFuel
  | fuel + 1, n, ctx =>
    match n with
    | .sym key => callSymbol fuel key ctx
    | .expr e => evalLam fuel e.lambda_ ctx
    | .num q => .ok (.num q)
    | .rv v => .ok (.rv v)
termination_by structural fuel _ _ => fuel

/-- `Symbol.__call__(context)`: look the key up; if the stored value is
callable, invoke it with the same context, otherwise return it. -/
def callSymbol : Nat → String → Ctx → Except Err Val
  | 0, _, _ => .error .outOfFuel
  | fuel + 1, key, ctx => do
      let thing ← ctxFind ctx key
      match thing with
      | .num q => .ok (.num q)
      | .rv v => .ok (.rv v)
      | t => callNumericish fuel t ctx
termination_by structural fuel _ _ => fuel

/-- The `for symbol, func in callables.items()` loop of `_new_lambda`: each
callable substitution is evaluated against the context extended so far, and
its result is added under its own key. -/
def evalCallables : Nat → List (String × Numericish) → Ctx → Except Err Ctx
  | _, [], ctx => .ok ctx
  | 0, _ :: _, _ => .error .outOfFuel
  | fuel + 1, (k, f) :: rest, ctx => do
      let v ← callNumericish fuel f ctx
      evalCallables fuel rest ((k, v.toNumericish) :: ctx)
termination_by structural fuel _ _ => fuel
end

/-- `_get_symbols(thing)`. -/
def getSymbolsOf : Numericish → List String
  | .expr e => e.symbols
  | .sym k => [k]
  | _ => []

/-- Union of two symbol sets (Python `set | set`), keeping the left list's
order and deduplicating. -/
def listUnion (a b : List String) : List String :=
  a ++ (b.eraseDups).filter (fun x => ¬ a.contains x)

/-- The `callables_symbols` set comprehension of `Expression.substitute`
(line 392): it reads `expr.symbols` on every callable substitution value —
an `AttributeError` when the value is a bare `Symbol` (or anything else
without a `.symbols` attribute). -/
def collectCallablesSymbols : List (String × Numericish) → Except Err (List String)
  | [] => .ok []
  | (_, .expr e) :: rest => (collectCallablesSymbols rest).map (e.symbols ++ ·)
  | (_, _) :: _ => .error .attributeError

/-- `Expression.substitute(substitutions)`.  The substitution mapping is an
association list keyed by the symbols' keys (Python keys it by the frozen
`Symbol` objects, which are equal exactly when their keys are equal). -/
def Expression.substitute (fuel : Nat) (e : Expression)
    (subs : List (String × Numericish)) : Except Err Numericish :=
  if ¬ (subs.all (fun kv => e.symbols.contains kv.1)) then .error .invalidSubstitution
  else
    let constants := subs.filter (fun kv => ¬ kv.2.callable)
    let callables := subs.filter (fun kv => kv.2.callable)
    let constants_symbols := constants.map (·.1)
    match collectCallablesSymbols callables with
    | .error err => .error err
    | .ok callables_symbols =>
        let new_symbols :=
          listUnion (e.symbols.filter (fun s => ¬ constants_symbols.contains s))
            callables_symbols
        if new_symbols.isEmpty then
          (evalLam fuel (.subst e.lambda_ constants callables) []).map Val.toNumericish
        else .ok (.expr (.mk new_symbols (.subst e.lambda_ constants callables)))

/-- `defer_operation_factory(lhs, operator, rhs)`: apply eagerly when
neither operand is callable, otherwise build the deferred Expression. -/
def defer_operation_factory (lhs : Numericish) (op : Op) (rhs : Numericish) :
    Except Err Numericish :=
  match lhs, rhs with
  | .num a, .num b => (applyOp op (.num a) (.num b)).map Val.toNumericish
  | .num a, .rv b => (applyOp op (.num a) (.rv b)).map Val.toNumericish
  | .rv a, .num b => (applyOp op (.rv a) (.num b)).map Val.toNumericish
  | .rv a, .rv b => (applyOp op (.rv a) (.rv b)).map Val.toNumericish
  | lhs, rhs =>
      .ok (.expr (.mk (listUnion (getSymbolsOf lhs) (getSymbolsOf rhs))
        (.binop op lhs rhs)))

/-! ## The expression-pool simplifier -/

/-- The `touched` set and `simplified` mapping that `simplify_expression_pool`
threads through its `_visit` recursion. -/
structure SimpSt where
  touched : List String
  simplified : List (String × Numericish)

/-- Python dict assignment `d[k] = v`: replace in place if present, append
otherwise. -/
def updateAssoc (l : List (String × Numericish)) (k : String) (v : Numericish) :
    List (String × Numericish) :=
  match l with
  | [] => [(k, v)]
  | (k', v') :: rest =>
      if k' == k then (k, v) :: rest else (k', v') :: updateAssoc rest k v

/-- `context = ChainMap(simplified, pool)`: lookup tries `simplified` first,
falling back to the pool. -/
def chainFind (st : SimpSt) (pool : Ctx) (k : String) : Except Err Numericish :=
  match List.lookup k st.simplified with
  | some v => .ok v
  | none =>
      match List.lookup k pool with
      | some v => .ok v
      | none => .error .keyError

def poolHas (pool : Ctx) (k : String) : Bool := (List.lookup k pool).isSome

mutual
/-- `_visit(key, stack)` of `simplify_expression_pool`. -/
def poolVisit (pool : Ctx) : Nat → String → List String → SimpSt →
    Except Err (Numericish × SimpSt)
  | 0, _, _, _ => .error .outOfFuel
  | fuel + 1, key, stack, st =>
    if stack.contains key then .error .circularDependency
    else if st.touched.contains key then (chainFind st pool key).map ((·, st))
    else do
      let value ← chainFind st pool key
      match value with
      | .num q => .ok (.num q, { st with touched := key :: st.touched })
      | .rv v => .ok (.rv v, { st with touched := key :: st.touched })
      | .expr e => do
          let (subs, st1) ← poolVisitSyms pool fuel e.symbols (stack ++ [key]) st
          let r ← Expression.substitute fuel e subs
          .ok (r, ⟨key :: st1.touched, updateAssoc st1.simplified key r⟩)
      | .sym skey =>
          if poolHas pool skey then do
            let (r, st1) ← poolVisit pool fuel skey (stack ++ [key]) st
            .ok (r, ⟨key :: st1.touched, updateAssoc st1.simplified key r⟩)
          else
            .ok (value, ⟨key :: st.touched, updateAssoc st.simplified key value⟩)
      -- the source ends `_visit` with `raise ValueError("Unknown value type")`;
      -- it is unreachable here because `num`/`rv` are exactly the non-callable
      -- values and `expr`/`sym` exactly the callable ones
termination_by structural fuel _ _ _ => fuel

/-- The dict comprehension
`{s: _visit(s.key, stack + [key]) for s in value.symbols if s.key in pool}`,
evaluated left to right. -/
def poolVisitSyms (pool : Ctx) : Nat → List String → List String → SimpSt →
    Except Err (List (String × Numericish) × SimpSt)
  | _, [], _, st => .ok ([], st)
  | 0, _ :: _, _, _ => .error .outOfFuel
  | fuel + 1, s :: rest, stack, st =>
      if poolHas pool s then do
        let (v, st1) ← poolVisit pool fuel s stack st
        let (subs, st2) ← poolVisitSyms pool fuel rest stack st1
        .ok ((s, v) :: subs, st2)
      else
        poolVisitSyms pool fuel rest stack st
termination_by structural fuel _ _ _ => fuel
end

/-- The `for key in pool: _visit(key, [])` driver loop. -/
def poolRun (pool : Ctx) (fuel : Nat) : List String → SimpSt → Except Err SimpSt
  | [], st => .ok st
  | k :: rest, st => do
      let (_, st1) ← poolVisit pool fuel k [] st
      poolRun pool fuel rest st1

/-- `simplify_expression_pool(pool)`: visit every key, then return the
`simplified` mapping (NOT the full context — keys bound to plain constants
are never written into `simplified`). -/
def simplify_expression_pool (fuel : Nat) (pool : Ctx) : Except Err Ctx := do
  let st ← poolRun pool fuel (pool.map (·.1)) ⟨[], []⟩
  .ok st.simplified

/-- `simplify_expression(expression, context)`: the standalone
single-expression simplifier. -/
def simplify_expression (fuel : Nat) (e : Expression)
    (context : List (String × Numericish)) : Except Err Numericish :=
  Expression.substitute fuel e
    ((e.symbols.filter (fun s => (List.lookup s context).isSome)).filterMap
      (fun s => (List.lookup s context).map ((s, ·))))

/-! ## Hierarchical flattening (`model2/flatten.py`)

`flatten.py` is in the source; its collaborators `model2/datamodel.py` (the
`dm1.Object` input model) and `model2/flat_datamodel.py` (`Instance`,
`Joint`, `dfs_with_ref`, `make_supers_match_filter`) are not, so those are
modelled from the spec (§3 of the spec gives their shapes).

Modelled from the spec: a `dm1.Object` exposes its BFS-ordered super chain
and four partitioned collections of locally declared children (nested
objects, replacement directives, link directives, parameter assignments),
each keyed by a dotted ref.  Python compares objects in `supers_bfs` by
object identity; the `oid` field models that identity.  The sentinel
objects `dm1.PIN` / `dm1.SIGNAL` are represented by the `tag` field. -/

abbrev Ref := List String

inductive Tag where
  | pin
  | signal
  | plain
deriving DecidableEq, BEq

/-- `dm1.Link`: a link directive (source ref, target ref). -/
structure Link where
  source_ref : Ref
  target_ref : Ref
deriving DecidableEq

inductive Object where
  | mk (oid : Nat) (tag : Tag) (supers_bfs : List Object)
      (child_objects : List (Ref × Object))
      (replacements : List (Ref × Ref × Object))
      (links : List (Ref × Link))
      (params : List (Ref × Numericish))

def Object.oid : Object → Nat
  | .mk i _ _ _ _ _ _ => i

def Object.tag : Object → Tag
  | .mk _ t _ _ _ _ _ => t

def Object.supers_bfs : Object → List Object
  | .mk _ _ s _ _ _ _ => s

/-- `obj.locals_by_type[dm1.Object]`. -/
def Object.child_objects : Object → List (Ref × Object)
  | .mk _ _ _ c _ _ _ => c

/-- `obj.locals_by_type[dm1.Replace]`, each entry being
(declaration ref, `replace.original_ref`, `replace.replacement_obj`). -/
def Object.replacements : Object → List (Ref × Ref × Object)
  | .mk _ _ _ _ r _ _ => r

/-- `obj.locals_by_type[dm1.Link]`. -/
def Object.links : Object → List (Ref × Link)
  | .mk _ _ _ _ _ l _ => l

/-- `obj.locals_by_type[(str, int)]`: the parameter assignments. -/
def Object.params : Object → List (Ref × Numericish)
  | .mk _ _ _ _ _ _ p => p

/-- Modelled from the spec: a `Joint` records the link that created it, the
instance it was created within, the two aggregate-level connected
endpoints, and the two leaf instances it connects.  Following spec §9, the
instance references are stored as non-owning refs (handles) rather than as
the instances themselves, which keeps the tree acyclic. -/
structure Joint where
  link : Link
  owner_ref : Ref
  source_connected_ref : Ref
  target_connected_ref : Ref
  source_instance_ref : Ref
  target_instance_ref : Ref
deriving DecidableEq

/-- Modelled from the spec: the flat-datamodel `Instance` node. -/
inductive Instance where
  | mk (ref : Ref) (origin : Option Object)
      (children_from_classes : List (String × Instance))
      (children_from_mods : List (String × Numericish))
      (joints : List Joint)
      (joined_to_me : List Joint)

def Instance.ref : Instance → Ref
  | .mk r _ _ _ _ _ => r

def Instance.origin : Instance → Option Object
  | .mk _ o _ _ _ _ => o

def Instance.children_from_classes : Instance → List (String × Instance)
  | .mk _ _ c _ _ _ => c

def Instance.children_from_mods : Instance → List (String × Numericish)
  | .mk _ _ _ m _ _ => m

def Instance.joints : Instance → List Joint
  | .mk _ _ _ _ j _ => j

def Instance.joined_to_me : Instance → List Joint
  | .mk _ _ _ _ _ b => b

/-- `Instance(ref=ref)`: a freshly allocated instance. -/
def freshInstance (ref : Ref) : Instance := .mk ref none [] [] [] []

def Instance.setOrigin : Instance → Object → Instance
  | .mk r _ c m j b, o => .mk r (some o) c m j b

/-- Python dict assignment on a name→Instance mapping: replace an existing
key in place, append a new one. -/
def updateChildList : List (String × Instance) → String → Instance →
    List (String × Instance)
  | [], name, child => [(name, child)]
  | (k, v) :: rest, name, child =>
      if k == name then (name, child) :: rest
      else (k, v) :: updateChildList rest name child

/-- One entry of `instance.children_from_classes.update({...})`. -/
def Instance.updateChild : Instance → String → Instance → Instance
  | .mk r o c m j b, name, child => .mk r o (updateChildList c name child) m j b

/-- `to_mod.children_from_mods[ref[-1]] = value`. -/
def Instance.setMod : Instance → String → Numericish → Instance
  | .mk r o c m j b, name, v => .mk r o c (updateAssoc m name v) j b

def Instance.appendJoint : Instance → Joint → Instance
  | .mk r o c m j b, jt => .mk r o c m (j ++ [jt]) b

def Instance.appendJoinedToMe : Instance → Joint → Instance
  | .mk r o c m j b, jt => .mk r o c m j (b ++ [jt])

/-- `get_ref_from_instance(ref, instance)`: `instance = instance.children[part]`
for each part.  Modelled from the spec: ref navigation walks the child
instances, i.e. `children_from_classes` (the `children_from_mods` overlay
holds parameter values, not instances). -/
def get_ref_from_instance : Ref → Instance → Except Err Instance
  | [], inst => .ok inst
  | part :: rest, inst =>
      match List.lookup part inst.children_from_classes with
      | some child => get_ref_from_instance rest child
      | none => .error .keyError

/-- Functional stand-in for Python's in-place mutation of a nested instance:
rebuild the tree with `f` applied to the node at `path`. -/
def updateAt : Instance → Ref → (Instance → Instance) → Except Err Instance
  | inst, [], f => .ok (f inst)
  | .mk r o c m j b, part :: rest, f =>
      match List.lookup part c with
      | some child => do
          let child' ← updateAt child rest f
          .ok (Instance.updateChild (.mk r o c m j b) part child')
      | none => .error .keyError

/-- Modelled from the spec: `dfs_with_ref(instance)` yields (relative ref,
instance) pairs in depth-first order, the node itself first, then its
class-children in order. -/
def dfs_with_ref : Nat → Instance → List (Ref × Instance)
  | 0, _ => []
  | fuel + 1, inst =>
      ([], inst) ::
        inst.children_from_classes.flatMap
          (fun nc => (dfs_with_ref fuel nc.2).map (fun ri => (nc.1 :: ri.1, ri.2)))

/-- Modelled from the spec:
`_IS_A_PIN_OR_SIGNAL = make_supers_match_filter((dm1.PIN, dm1.SIGNAL))` —
an instance is pin/signal-capable (connectable) when its origin's super
chain includes the PIN or SIGNAL sentinel. -/
def is_a_pin_or_signal (inst : Instance) : Bool :=
  match inst.origin with
  | some o => o.supers_bfs.any (fun s => s.tag == Tag.pin || s.tag == Tag.signal)
  | none => false

/-- `ref_and_connectable_pairs(instance)`. -/
def ref_and_connectable_pairs (fuel : Nat) (inst : Instance) : List (Ref × Instance) :=
  (dfs_with_ref fuel inst).filter (fun ri => is_a_pin_or_signal ri.2)

/-- `sorted(replacements, key=lambda x: len(x[1].original_ref))` — the
`replacements_deepest_first` list of `_build` (line 67).  `sorted` is a
stable sort ascending on the key, i.e. by increasing `original_ref` length;
modelled by a stable insertion sort. -/
def replacements_deepest_first (rs : List (Ref × Ref × Object)) :
    List (Ref × Ref × Object) :=
  rs.insertionSort (fun a b => a.2.1.length ≤ b.2.1.length)

/-- The per-link joint-creation loop: zip the two connectable enumerations
(Python `zip` stops at the shorter one), assert the relative refs align,
create a `Joint` for each aligned pair, and append it to both leaf
instances' `joined_to_me` and to the enclosing instance's `joints`. -/
def joinPairs (link : Link) (sc tc : Instance) :
    List ((Ref × Instance) × (Ref × Instance)) → Instance → Except Err Instance
  | [], inst => .ok inst
  | ((source_ref, source_instance), (target_ref, target_instance)) :: rest, inst => do
      if source_ref ≠ target_ref then .error .assertionFailed
      else do
        let joint : Joint :=
          ⟨link, inst.ref, sc.ref, tc.ref, source_instance.ref, target_instance.ref⟩
        let inst1 ← updateAt inst (link.source_ref ++ source_ref)
          (fun i => i.appendJoinedToMe joint)
        let inst2 ← updateAt inst1 (link.target_ref ++ target_ref)
          (fun i => i.appendJoinedToMe joint)
        joinPairs link sc tc rest (inst2.appendJoint joint)

/-- The `for _, link in links` loop of `_build`. -/
def applyLinks (fuel : Nat) : List (Ref × Link) → Instance → Except Err Instance
  | [], inst => .ok inst
  | (_, link) :: rest, inst => do
      let source_connected ← get_ref_from_instance link.source_ref inst
      let target_connected ← get_ref_from_instance link.target_ref inst
      let sources := ref_and_connectable_pairs fuel source_connected
      let targets := ref_and_connectable_pairs fuel target_connected
      let inst' ← joinPairs link source_connected target_connected
        (sources.zip targets) inst
      applyLinks fuel rest inst'

/-- The `for ref, value in params` loop of `_build`. -/
def applyParams : List (Ref × Numericish) → Instance → Except Err Instance
  | [], inst => .ok inst
  | (ref, value) :: rest, inst => do
      let last ←
        match ref.getLast? with
        | some l => .ok l
        | none => .error .indexError
      let inst' ← updateAt inst ref.dropLast (fun i => i.setMod last value)
      applyParams rest inst'

/-- Does `obj in instance.origin.supers_bfs` hold (Python object identity,
modelled by `oid`)? -/
def originHasLayer (i : Instance) (obj : Object) : Bool :=
  match i.origin with
  | some o => o.supers_bfs.any (fun s => s.oid == obj.oid)
  | none => false

mutual
/-- `_build(obj, name, parent, instance)`.  The `name`/`parent` pair is
collapsed into the precomputed `ref` (Python only uses them to compute
`ref = parent.ref + (name,)`, falling back to the empty ref).  Python
mutates the supplied `instance` in place; functionally, `_build` returns
the resulting instance together with a flag recording whether it is the
supplied instance object (so that the replacement call site, which discards
`_build`'s return value and relies on mutation, knows whether to write the
result back). -/
def _build (fuel : Nat) (obj : Object) (ref : Ref) (instIn : Option Instance) :
    Except Err (Instance × Bool) :=
  match fuel with
  | 0 => .error .outOfFuel
  | fuel + 1 =>
    let earlyHit : Option Instance :=
      match instIn with
      | some i => if originHasLayer i obj then some i else none
      | none => none
    match earlyHit with
    | some i => .ok (i, true)
    | none => do
        let (inst1, same) ←
          match obj.supers_bfs with
          | s :: _ => _build fuel s ref instIn
          | [] => .ok (freshInstance ref, match instIn with | some _ => false | none => false)
        let inst2 := inst1.setOrigin obj
        let inst3 ← buildChildren fuel obj.child_objects inst2
        let inst4 ← applyReplacements fuel (replacements_deepest_first obj.replacements) inst3
        let inst5 ← applyLinks fuel obj.links inst4
        let inst6 ← applyParams obj.params inst5
        .ok (inst6, same)
termination_by structural fuel

/-- The children dict comprehension of `_build`: each locally declared child
object is built (fresh) under `instance.ref + (child_ref[0],)` and merged
into `children_from_classes`. -/
def buildChildren : Nat → List (Ref × Object) → Instance → Except Err Instance
  | _, [], inst => .ok inst
  | 0, _ :: _, _ => .error .outOfFuel
  | fuel + 1, (child_ref, child_obj) :: rest, inst => do
      let name ←
        match child_ref.head? with
        | some n => .ok n
        | none => .error .indexError
      let (built, _) ← _build fuel child_obj (inst.ref ++ [name]) none
      buildChildren fuel rest (inst.updateChild name built)
termination_by structural fuel _ _ => fuel

/-- The `for _, replace in replacements_deepest_first` loop: locate the
existing instance at `replace.original_ref` and re-invoke `_build` on
`replace.replacement_obj` with it as the mutation target.  Python relies on
in-place mutation and discards `_build`'s return value; functionally we
write the result back exactly when `_build` reports that it is (the mutated)
target instance. -/
def applyReplacements : Nat → List (Ref × Ref × Object) → Instance →
    Except Err Instance
  | _, [], inst => .ok inst
  | 0, _ :: _, _ => .error .outOfFuel
  | fuel + 1, (_, original_ref, replacement_obj) :: rest, inst => do
      let instance_to_replace ← get_ref_from_instance original_ref inst
      let (res, same) ← _build fuel replacement_obj [] (some instance_to_replace)
      let inst' ← if same then updateAt inst original_ref (fun _ => res) else pure inst
      applyReplacements fuel rest inst'
termination_by structural fuel _ _ => fuel
end

/-- `build(obj)`: `_build(obj, name="entry")` — with no parent the ref is
the empty ref. -/
def build (fuel : Nat) (obj : Object) : Except Err Instance :=
  (_build fuel obj [] none).map (·.1)

/-! ## Concrete instances used by the claims -/

/-- The pool invariant probed by several claims: holds of an `Except` result
when it is `ok` with `min_val ≤ max_val`. -/
def invariantOk : Except Err RangedValue → Prop
  | .ok v => v.min_val ≤ v.max_val
  | .error _ => True

/-- `B = A + 1` as built by `defer_operation_factory(Symbol("A"), add, 1)`. -/
def exprB : Expression := .mk ["A"] (.binop .add (.sym "A") (.num 1))

/-- `C = B + 2`. -/
def exprC : Expression := .mk ["B"] (.binop .add (.sym "B") (.num 2))

/-- `E = D + 4`. -/
def exprE : Expression := .mk ["D"] (.binop .add (.sym "D") (.num 4))

/-- The pool of claim C5 exactly as the claim states it, including the
`"A" ↦ Symbol("A")` entry. -/
def poolC5 : Ctx :=
  [("A", .sym "A"), ("B", .expr exprB), ("C", .expr exprC), ("D", .num 3),
   ("E", .expr exprE)]

/-- The C5 pool without the `"A"` entry (`A` declared but undefined, as in
the docstring example the claim was derived from). -/
def poolC5' : Ctx :=
  [("B", .expr exprB), ("C", .expr exprC), ("D", .num 3), ("E", .expr exprE)]

/-- The residual `simplify_expression_pool` computes for `B` over `poolC5'`. -/
def residB : Expression := .mk ["A"] (.subst exprB.lambda_ [] [])

/-- The residual computed for `C`: note its symbol set is `["B", "A"]` —
`substitute` does not remove a symbol substituted by a callable. -/
def residC : Expression := .mk ["B", "A"] (.subst exprC.lambda_ [] [("B", .expr residB)])

/-- `RangedValue(2, 2)`. -/
def rv22 : RangedValue := ⟨UNITLESS, none, 2, 2⟩

/-- `Symbol('a') + 1` as built by `defer_operation_factory`. -/
def exprA1 : Expression := .mk ["a"] (.binop .add (.sym "a") (.num 1))

/-- The volt of the model: dimension 1 with factor 1. -/
def voltU : Uom := ⟨1, 1⟩

/-- `RangedValue(1, 3)` (dimensionless, tolerance 1). -/
def rv13 : RangedValue := ⟨UNITLESS, none, 1, 3⟩

/-- A one-entry pool whose value is a plain constant. -/
def poolD : Ctx := [("D", .num 3)]

/-- A one-entry pool `S ↦ Symbol("T")` with `T` undefined: the simplifier
leaves the symbol as-is but does record it in `simplified`. -/
def poolS : Ctx := [("S", .sym "T")]

/-- The `dm1.PIN` sentinel object (modelled by its tag). -/
def pinSentinel : Object := .mk 100 .pin [] [] [] [] []

/-- A pin prototype: an object whose super chain is `[PIN]`. -/
def pinProto : Object := .mk 10 .plain [pinSentinel] [] [] [] []

/-- A module with two pins `p1`, `p2`. -/
def objX : Object := .mk 1 .plain [] [(["p1"], pinProto), (["p2"], pinProto)] [] [] []

/-- A module with one pin `p1`. -/
def objY : Object := .mk 2 .plain [] [(["p1"], pinProto)] [] [] []

/-- C1's failing input: a root with children `x` (2 connectable leaves) and
`y` (1 connectable leaf) and a link `x ~ y`. -/
def rootC1 : Object :=
  .mk 0 .plain [] [(["x"], objX), (["y"], objY)] [] [([], ⟨["x"], ["y"]⟩)] []

/-- C2's replacement list: the deeper-target directive listed first. -/
def repsC2 : List (Ref × Ref × Object) :=
  [(["r1"], ["a", "b"], pinProto), (["r2"], ["a"], pinProto)]

/-- A pool entry is "callable" (an `Expression` or `Symbol`) at key `k`. -/
def callableAt (pool : Ctx) (k : String) : Prop :=
  ∃ v, List.lookup k pool = some v ∧ v.callable = true

/-- The invariant of the simplifier state: a key has been written into
`simplified` exactly when it has been fully visited (`touched`) and its pool
value is callable — plain constants are only ever marked `touched`. -/
def poolInv (pool : Ctx) (st : SimpSt) : Prop :=
  ∀ k, k ∈ st.simplified.map Prod.fst ↔ (k ∈ st.touched ∧ callableAt pool k)

/-! ## Theorems -/

/-- Monad-reduction helper for the `Except` do-blocks. -/
theorem ok_bind {α β : Type} (a : α) (f : α → Except Err β) :
    (Except.ok a >>= f) = f a := rfl

/-- Monad-reduction helper for the `Except` do-blocks. -/
theorem error_bind {α β : Type} (e : Err) (f : α → Except Err β) :
    ((Except.error e : Except Err α) >>= f) = .error e := rfl

/-- Monad-reduction helper for `Except.map`. -/
theorem map_ok {α β : Type} (f : α → β) (a : α) :
    (Except.ok a : Except Err α).map f = .ok (f a) := rfl

/-- Monad-reduction helper for `Except.map`. -/
theorem map_error {α β : Type} (f : α → β) (e : Err) :
    (Except.error e : Except Err α).map f = .error e := rfl

/-- C1: the claim says a link whose endpoint subtrees enumerate differing
numbers of connectable leaves makes `build` fail with a StructuralMismatch
error.  The code has no such check: `zip` silently truncates to the shorter
enumeration.  On `rootC1` — endpoint `x` enumerates 2 connectable leaves,
endpoint `y` enumerates 1 — `build` succeeds and produces a partially
joined tree with exactly one joint (for the zip-aligned pair `p1`), instead
of raising anything. -/
theorem c1_no_structural_mismatch_error :
    (do
      let i ← build 20 rootC1
      let sx ← get_ref_from_instance ["x"] i
      let sy ← get_ref_from_instance ["y"] i
      pure (i.joints.length, (ref_and_connectable_pairs 20 sx).length,
        (ref_and_connectable_pairs 20 sy).length) : Except Err (Nat × Nat × Nat)) =
    .ok (1, 2, 1) := rfl

/-- C3: the claim says that when exactly one endpoint carries a unit the
resulting unit is that operand's unit regardless of position.  That holds
for a first-endpoint quantity, but the second `elif` of
`RangedValue.__init__` re-tests `val_a` instead of `val_b` (line 78), so a
quantity appearing only as the second endpoint falls through to
`_UNITLESS`, and converting it into the dimensionless unit then raises
`DimensionalityError`. -/
theorem c3_second_endpoint_unit_dropped :
    RangedValue.make (.qty ⟨2, voltU⟩) (some (.num 1)) none none =
      .ok ⟨voltU, none, 1, 2⟩ ∧
    RangedValue.make (.num 1) (some (.qty ⟨2, voltU⟩)) none none =
      .error .dimensionality := ⟨rfl, rfl⟩

/-- C5 counterexample: on the pool exactly as the claim states it —
including the entry `"A" ↦ Symbol("A")` — `simplify_expression_pool` does
not succeed: visiting `"A"` re-visits key `"A"` (the symbol's key is in the
pool) with `"A"` already on the path stack, raising the circular-dependency
error. -/
theorem c5_pool_with_A_is_circular :
    simplify_expression_pool 20 poolC5 = .error .circularDependency := rfl

/-- C5 amended: with the `"A"` entry absent (A declared but undefined, as in
the source docstring), simplification succeeds and yields `B` as a residual
Expression with symbol set `{A}`, `C` as a residual with symbol set
`{B, A}` (not `{A}`: a callable-substituted symbol is not removed), `E`
folded to the concrete value `7`, and no entry at all for the plain
constant `D` (which stays `3` in the input pool).  The three `defer` facts
record that `exprB`/`exprC`/`exprE` are exactly what
`defer_operation_factory` builds for `A+1`, `B+2`, `D+4`. -/
theorem c5_amended_simplification :
    defer_operation_factory (.sym "A") .add (.num 1) = .ok (.expr exprB) ∧
    defer_operation_factory (.sym "B") .add (.num 2) = .ok (.expr exprC) ∧
    defer_operation_factory (.sym "D") .add (.num 4) = .ok (.expr exprE) ∧
    simplify_expression_pool 20 poolC5' =
      .ok [("B", .expr residB), ("C", .expr residC), ("E", .num 7)] ∧
    residB.symbols = ["A"] ∧
    residC.symbols = ["B", "A"] ∧
    List.lookup "D" poolC5' = some (.num 3) :=
  ⟨rfl, rfl, rfl, rfl, rfl, rfl, rfl⟩

/-- C4 counterexample: on the pool `{"D": 3}` the returned mapping is empty
— the key `"D"`, whose value is a plain constant, is not among the output
keys, so the output key set differs from the input key set. -/
theorem c4_constant_key_dropped :
    simplify_expression_pool 10 poolD = .ok [] ∧
    ¬ (∀ k, k ∈ (([] : Ctx).map Prod.fst) ↔ k ∈ poolD.map Prod.fst) :=
  ⟨rfl, fun h => absurd ((h "D").mpr (by decide)) (by decide)⟩

/-- C2 counterexample: `sorted(..., key=len(original_ref))` sorts ascending,
so with a depth-2 directive listed before a depth-1 directive the applied
order has target-ref depths `[1, 2]` — not strictly decreasing as the claim
requires. -/
theorem c2_sorted_ascending_not_descending :
    (replacements_deepest_first repsC2).map (fun r => r.2.1.length) = [1, 2] ∧
    ¬ ((replacements_deepest_first repsC2).map
        (fun r => r.2.1.length)).Sorted (· > ·) := by
  constructor
  · rfl
  · intro h
    have := List.rel_of_sorted_cons (by rw [show (replacements_deepest_first repsC2).map
        (fun r => r.2.1.length) = [1, 2] from rfl] at h; exact h) 2 (by simp)
    omega

/-- C2 amended: the replacement directives are applied in order of
increasing target-ref depth (shallowest first): the list `_build` iterates
is sorted ascending by `len(original_ref)` and is a permutation of the
declared directives.  (It is exactly because deeper replacements are
applied after shallower ones that a nested replacement is not clobbered.) -/
theorem c2_replacements_applied_shallowest_first :
    ∀ rs : List (Ref × Ref × Object),
      ((replacements_deepest_first rs).map (fun r => r.2.1.length)).Sorted (· ≤ ·) ∧
      (replacements_deepest_first rs).Perm rs := by
  intro rs
  constructor
  · haveI : IsTotal (Ref × Ref × Object) (fun a b => a.2.1.length ≤ b.2.1.length) :=
      ⟨fun a b => Nat.le_total _ _⟩
    haveI : IsTrans (Ref × Ref × Object) (fun a b => a.2.1.length ≤ b.2.1.length) :=
      ⟨fun _ _ _ hab hbc => Nat.le_trans hab hbc⟩
    have h := List.sorted_insertionSort
      (fun (a b : Ref × Ref × Object) => a.2.1.length ≤ b.2.1.length) rs
    exact List.pairwise_map.mpr h
  · exact List.perm_insertionSort _ rs

/-- Evaluation-invariance helper: a bound continuation preserves
`invariantOk`. -/
theorem invariantOk_bind {α : Type} {x : Except Err α} {f : α → Except Err RangedValue}
    (h : ∀ a, invariantOk (f a)) : invariantOk (x >>= f) := by
  cases x with
  | error e => simp [Bind.bind, Except.bind, invariantOk]
  | ok a => simpa [Bind.bind, Except.bind] using h a

/-- Every successful `RangedValue.__init__` sorts its endpoints. -/
theorem make_invariantOk (a b u p) : invariantOk (RangedValue.make a b u p) := by
  unfold RangedValue.make
  apply invariantOk_bind; intro u'
  apply invariantOk_bind; intro ma
  apply invariantOk_bind; intro mb
  simp only [invariantOk]
  exact min_le_max

/-- C6: every RangedValue produced by construction or by any of the
arithmetic operations (`+`, `-` including the reflected form, `*`, `/` in
both directions, `**`, negation) satisfies `min_val ≤ max_val` — every
operation funnels its endpoints through the constructor, which sorts
them. -/
theorem c6_min_le_max_invariant :
    (∀ a b u p, invariantOk (RangedValue.make a b u p)) ∧
    (∀ x o, invariantOk (RangedValue.addOp x o)) ∧
    (∀ x o, invariantOk (RangedValue.subOp x o)) ∧
    (∀ x o, invariantOk (RangedValue.rsubOp x o)) ∧
    (∀ x o, invariantOk (RangedValue.mulOp x o)) ∧
    (∀ n d, invariantOk (RangedValue.do_truediv n d)) ∧
    (∀ x o, invariantOk (RangedValue.truedivOp x o)) ∧
    (∀ x o, invariantOk (RangedValue.rtruedivOp x o)) ∧
    (∀ x o, invariantOk (RangedValue.powOp x o)) ∧
    (∀ x, invariantOk (RangedValue.negOp x)) := by
  refine ⟨make_invariantOk, ?_, ?_, ?_, ?_, ?_, ?_, ?_, ?_, ?_⟩
  · intro x o
    unfold RangedValue.addOp
    apply invariantOk_bind; intro mn
    apply invariantOk_bind; intro mx
    exact make_invariantOk ..
  · intro x o
    unfold RangedValue.subOp
    apply invariantOk_bind; intro mn
    apply invariantOk_bind; intro mx
    exact make_invariantOk ..
  · intro x o
    unfold RangedValue.rsubOp RangedValue.subOp
    apply invariantOk_bind; intro mn
    apply invariantOk_bind; intro mx
    exact make_invariantOk ..
  · intro x o
    unfold RangedValue.mulOp
    apply invariantOk_bind; intro mn
    apply invariantOk_bind; intro mx
    exact make_invariantOk ..
  · intro n d
    unfold RangedValue.do_truediv
    apply invariantOk_bind; intro v1
    apply invariantOk_bind; intro v2
    apply invariantOk_bind; intro v3
    apply invariantOk_bind; intro v4
    apply invariantOk_bind; intro mn
    apply invariantOk_bind; intro mx
    exact make_invariantOk ..
  · intro x o
    unfold RangedValue.truedivOp RangedValue.do_truediv
    apply invariantOk_bind; intro v1
    apply invariantOk_bind; intro v2
    apply invariantOk_bind; intro v3
    apply invariantOk_bind; intro v4
    apply invariantOk_bind; intro mn
    apply invariantOk_bind; intro mx
    exact make_invariantOk ..
  · intro x o
    unfold RangedValue.rtruedivOp RangedValue.do_truediv
    apply invariantOk_bind; intro v1
    apply invariantOk_bind; intro v2
    apply invariantOk_bind; intro v3
    apply invariantOk_bind; intro v4
    apply invariantOk_bind; intro mn
    apply invariantOk_bind; intro mx
    exact make_invariantOk ..
  · intro x o
    unfold RangedValue.powOp
    apply invariantOk_bind; intro e
    apply invariantOk_bind; intro n
    apply invariantOk_bind; intro mn
    apply invariantOk_bind; intro mx
    exact make_invariantOk ..
  · intro x
    unfold RangedValue.negOp
    exact make_invariantOk ..

/-- The `callables_symbols` computation fails with `AttributeError` as soon
as any callable substitution value is a bare `Symbol`. -/
theorem collectCallablesSymbols_err :
    ∀ (l : List (String × Numericish)) (s t : String),
      (s, Numericish.sym t) ∈ l →
      collectCallablesSymbols l = .error .attributeError := by
  intro l
  induction l with
  | nil => intro s t h; simp at h
  | cons hd tl ih =>
      intro s t h
      obtain ⟨k, v⟩ := hd
      cases v with
      | expr e =>
          rcases List.mem_cons.mp h with h1 | h2
          · cases h1
          · rw [show collectCallablesSymbols ((k, Numericish.expr e) :: tl) =
                (collectCallablesSymbols tl).map (e.symbols ++ ·) from rfl,
              ih s t h2]
            rfl
      | num q => rfl
      | rv w => rfl
      | sym u => rfl

/-- C10: substituting a bare `Symbol` for a symbol of an expression (with an
otherwise valid substitution mapping, all of whose keys are declared
symbols) raises `AttributeError` instead of returning a residual
Expression: computing the new symbol set reads `.symbols` on every callable
substitution value, and a `Symbol` has no such attribute. -/
theorem c10_bare_symbol_substitution_raises :
    ∀ (e : Expression) (subs : List (String × Numericish)) (fuel : Nat) (s t : String),
      (s, Numericish.sym t) ∈ subs →
      (∀ kv ∈ subs, e.symbols.contains kv.1 = true) →
      Expression.substitute fuel e subs = .error .attributeError := by
  intro e subs fuel s t hmem hdecl
  have hall : subs.all (fun kv => e.symbols.contains kv.1) = true :=
    List.all_eq_true.mpr fun kv hkv => hdecl kv hkv
  have hfil : (s, Numericish.sym t) ∈ subs.filter (fun kv => kv.2.callable) :=
    List.mem_filter.mpr ⟨hmem, rfl⟩
  unfold Expression.substitute
  rw [if_neg (not_not_intro hall)]
  simp only [collectCallablesSymbols_err _ s t hfil]

/-- C10 witness: the expression `a + 1` with the substitution
`{a ↦ Symbol("b")}`. -/
theorem c10_witness :
    ((("a" : String), Numericish.sym "b") ∈ [(("a" : String), Numericish.sym "b")]) ∧
    (∀ kv ∈ [(("a" : String), Numericish.sym "b")],
      exprA1.symbols.contains kv.1 = true) ∧
    Expression.substitute 10 exprA1 [("a", Numericish.sym "b")] =
      .error .attributeError :=
  ⟨List.mem_singleton.mpr rfl, by decide,
    c10_bare_symbol_substitution_raises exprA1 [("a", Numericish.sym "b")] 10 "a" "b"
      (List.mem_singleton.mpr rfl) (by decide)⟩

/-- Evaluating a substitution closure with no callables against the empty
outer context just runs the original closure over the constants. -/
theorem evalLam_subst_empty (fuel : Nat) (lam : Lam)
    (constants : List (String × Numericish)) :
    evalLam (fuel + 1) (.subst lam constants []) [] = evalLam fuel lam constants := by
  show (if (constants.any fun kv => (List.lookup kv.1 ([] : Ctx)).isSome) = true
      then (Except.error Err.nameCollision : Except Err Val)
      else do
        let ctx2 ← evalCallables fuel ([] : List (String × Numericish)) (constants ++ [])
        evalLam fuel lam ctx2) = evalLam fuel lam constants
  rw [if_neg (by simp)]
  rw [show evalCallables fuel ([] : List (String × Numericish)) (constants ++ []) =
    .ok (constants ++ []) by simp [evalCallables]]
  rw [List.append_nil]
  rfl

/-- A value produced through `Val.toNumericish` is never callable. -/
theorem toNumericish_map_ok {r : Except Err Val} {n : Numericish}
    (h : r.map Val.toNumericish = .ok n) : n.callable = false := by
  cases r with
  | error e => simp [Except.map] at h
  | ok v =>
      simp only [Except.map] at h
      cases h
      cases v <;> rfl

/-- C7: substituting a non-callable constant for every symbol of an
expression returns the concrete evaluation of the expression's closure over
exactly those constants — never a residual Expression. -/
theorem c7_full_constant_substitution_folds :
    ∀ (e : Expression) (subs : List (String × Numericish)) (fuel : Nat),
      (∀ k, k ∈ subs.map Prod.fst ↔ k ∈ e.symbols) →
      (∀ kv ∈ subs, kv.2.callable = false) →
      Expression.substitute (fuel + 1) e subs =
        (evalLam fuel e.lambda_ subs).map Val.toNumericish ∧
      ∀ n, Expression.substitute (fuel + 1) e subs = .ok n → n.callable = false := by
  intro e subs fuel hk hnc
  have hmapfst : List.map (fun kv : String × Numericish => kv.1) subs =
      List.map Prod.fst subs := rfl
  have hall : subs.all (fun kv => e.symbols.contains kv.1) = true :=
    List.all_eq_true.mpr fun kv hkv => by
      have hmem : kv.1 ∈ e.symbols := (hk kv.1).mp (List.mem_map_of_mem _ hkv)
      simpa [List.contains] using List.elem_eq_true_of_mem hmem
  have hfilc : subs.filter (fun kv => kv.2.callable) = [] :=
    List.filter_eq_nil_iff.mpr fun kv hkv => by simp [hnc kv hkv]
  have hfilnc : subs.filter (fun kv => ¬ kv.2.callable) = subs :=
    List.filter_eq_self.mpr fun kv hkv => by simp [hnc kv hkv]
  have hfempty :
      e.symbols.filter
        (fun s => ¬ (List.map (fun kv : String × Numericish => kv.1) subs).contains s) = [] :=
    List.filter_eq_nil_iff.mpr fun s hs => by
      have hmem : s ∈ subs.map Prod.fst := (hk s).mpr hs
      simp only [hmapfst]
      simpa [List.contains] using List.elem_eq_true_of_mem hmem
  have hmain : Expression.substitute (fuel + 1) e subs =
      (evalLam fuel e.lambda_ subs).map Val.toNumericish := by
    unfold Expression.substitute
    rw [if_neg (not_not_intro hall)]
    simp only [hfilc, hfilnc, collectCallablesSymbols, hfempty, listUnion,
      List.eraseDups, List.nil_append, List.filter_nil, List.isEmpty_nil,
      if_pos]
    show (evalLam (fuel + 1) (.subst e.lambda_ subs []) []).map Val.toNumericish =
      (evalLam fuel e.lambda_ subs).map Val.toNumericish
    rw [evalLam_subst_empty fuel e.lambda_ subs]
  exact ⟨hmain, fun n hn => toNumericish_map_ok (hmain ▸ hn)⟩

/-- C7 witness: `e = Symbol('a') + 1`, substituting
`{a ↦ RangedValue(2, 2)}` yields the concrete `RangedValue(3, 3)`. -/
theorem c7_witness :
    (∀ k, k ∈ [(("a" : String), Numericish.rv rv22)].map Prod.fst ↔ k ∈ exprA1.symbols) ∧
    (∀ kv ∈ [(("a" : String), Numericish.rv rv22)], kv.2.callable = false) ∧
    Expression.substitute 10 exprA1 [("a", Numericish.rv rv22)] =
      (evalLam 9 exprA1.lambda_ [("a", Numericish.rv rv22)]).map Val.toNumericish ∧
    Expression.substitute 10 exprA1 [("a", Numericish.rv rv22)] =
      .ok (.rv ⟨UNITLESS, none, 3, 3⟩) := by
  have h1 : ∀ k, k ∈ [(("a" : String), Numericish.rv rv22)].map Prod.fst ↔
      k ∈ exprA1.symbols := by simp [exprA1, Expression.symbols]
  have h2 : ∀ kv ∈ [(("a" : String), Numericish.rv rv22)], kv.2.callable = false := by
    intro kv hkv
    rcases List.mem_singleton.mp hkv with rfl
    rfl
  have h3 := (c7_full_constant_substitution_folds exprA1
    [("a", Numericish.rv rv22)] 9 h1 h2).1
  exact ⟨h1, h2, h3, h3.trans rfl⟩

/-- C8: a pool in which a key is defined directly or transitively in terms
of itself makes `simplify_expression_pool` fail with the circular-dependency
error — for any keys and any expression bodies: a two-key expression cycle
(`X` in terms of `Y` in terms of `X`), a direct expression self-reference,
a two-key symbol cycle, and a direct symbol self-reference. -/
theorem c8_circular_pools_error :
    ∀ (x y : String) (lx ly : Lam) (fuel : Nat), x ≠ y →
      simplify_expression_pool (fuel + 5)
        [(x, .expr (.mk [y] lx)), (y, .expr (.mk [x] ly))] =
        .error .circularDependency ∧
      simplify_expression_pool (fuel + 3)
        [(x, .expr (.mk [x] lx))] = .error .circularDependency ∧
      simplify_expression_pool (fuel + 3)
        [(x, .sym y), (y, .sym x)] = .error .circularDependency ∧
      simplify_expression_pool (fuel + 2)
        [(x, .sym x)] = .error .circularDependency := by
  intro x y lx ly fuel hne
  have hxy : (x == y) = false := beq_eq_false_iff_ne.mpr hne
  have hyx : (y == x) = false := beq_eq_false_iff_ne.mpr (Ne.symm hne)
  refine ⟨?_, ?_, ?_, ?_⟩
  · simp [simplify_expression_pool, poolRun, poolVisit, poolVisitSyms, chainFind,
      poolHas, List.lookup, hxy, hyx, Expression.symbols, ok_bind, error_bind,
      map_ok, map_error]
  · simp [simplify_expression_pool, poolRun, poolVisit, poolVisitSyms, chainFind,
      poolHas, List.lookup, Expression.symbols, ok_bind, error_bind, map_ok,
      map_error]
  · simp [simplify_expression_pool, poolRun, poolVisit, poolVisitSyms, chainFind,
      poolHas, List.lookup, hxy, hyx, ok_bind, error_bind, map_ok, map_error]
  · simp [simplify_expression_pool, poolRun, poolVisit, chainFind, poolHas,
      List.lookup, ok_bind, error_bind, map_ok, map_error]

/-- C8 witness: the two-key expression cycle at the concrete keys
`"X"`/`"Y"`. -/
theorem c8_witness :
    ("X" : String) ≠ "Y" ∧
    simplify_expression_pool 5
      [("X", .expr (.mk ["Y"] (.constNum 0))), ("Y", .expr (.mk ["X"] (.constNum 0)))] =
      .error .circularDependency :=
  ⟨by decide,
    (c8_circular_pools_error "X" "Y" (.constNum 0) (.constNum 0) 0 (by decide)).1⟩

/-- C9 counterexample: for `a = RangedValue(1, 3)` (tolerance 1) the
difference `a - a` is `[-2, 2]`: its width `max_val - min_val` is `4`,
which is `4 * a.tolerance`, not `2 * a.tolerance = 2` as the claim states. -/
theorem c9_width_is_four_tolerances :
    RangedValue.subOp rv13 (.rv rv13) = .ok ⟨UNITLESS, none, -2, 2⟩ ∧
    rv13.tolerance = 1 ∧
    ((2 : ℚ) - (-2)) ≠ 2 * rv13.tolerance := by
  refine ⟨rfl, rfl, ?_⟩
  rw [show rv13.tolerance = 1 from rfl]
  norm_num

/-- Converting a quantity into its own unit is the identity when the unit's
factor is nonzero. -/
theorem quantity_to_self {u : Uom} (hf : u.factor ≠ 0) (q : ℚ) :
    Quantity.to ⟨q, u⟩ u = .ok ⟨q, u⟩ := by
  unfold Quantity.to
  rw [if_pos rfl, mul_div_cancel_right₀ _ hf]

/-- `_best_units` on two quantities that share a unit returns that unit. -/
theorem best_units_same {u : Uom} (hf : u.factor ≠ 0) (q1 q2 : ℚ) :
    best_units ⟨q1, u⟩ ⟨q2, u⟩ = .ok u := by
  unfold best_units
  rw [quantity_to_self hf, ok_bind, quantity_to_self hf, ok_bind, ite_self]

/-- Constructing a RangedValue from two quantities sharing a unit (with
nonzero factor) keeps that unit and sorts the two magnitudes. -/
theorem make_same_unit {u : Uom} (hf : u.factor ≠ 0) (q1 q2 : ℚ) :
    RangedValue.make (.qty ⟨q1, u⟩) (some (.qty ⟨q2, u⟩)) none none =
      .ok ⟨u, none, min q1 q2, max q1 q2⟩ := by
  unfold RangedValue.make inferUnit NumQ.qtyPart NumQ.toMag
  simp only [Option.getD_some, best_units_same hf, ok_bind, quantity_to_self hf,
    map_ok]

/-- `a - a` computed as the source computes it: `[min - max, max - min]` in
`a`'s unit. -/
theorem subOp_self_eq (a : RangedValue) (hf : a.unit.factor ≠ 0)
    (hord : a.min_val ≤ a.max_val) :
    RangedValue.subOp a (.rv a) =
      .ok ⟨a.unit, none, a.min_val - a.max_val, a.max_val - a.min_val⟩ := by
  have hsub1 : Quantity.sub a.min_qty a.max_qty =
      .ok ⟨a.min_val - a.max_val, a.unit⟩ := by
    unfold Quantity.sub RangedValue.min_qty RangedValue.max_qty
    rw [quantity_to_self hf, ok_bind]
  have hsub2 : Quantity.sub a.max_qty a.min_qty =
      .ok ⟨a.max_val - a.min_val, a.unit⟩ := by
    unfold Quantity.sub RangedValue.min_qty RangedValue.max_qty
    rw [quantity_to_self hf, ok_bind]
  unfold RangedValue.subOp
  show (do
      let mn ← a.min_qty.sub a.max_qty
      let mx ← a.max_qty.sub a.min_qty
      RangedValue.make (NumQ.qty mn) (some (NumQ.qty mx)) none none) =
    Except.ok ⟨a.unit, none, a.min_val - a.max_val, a.max_val - a.min_val⟩
  rw [hsub1, ok_bind, hsub2, ok_bind, make_same_unit hf]
  have h1 : min (a.min_val - a.max_val) (a.max_val - a.min_val) =
      a.min_val - a.max_val := min_eq_left (by linarith)
  have h2 : max (a.min_val - a.max_val) (a.max_val - a.min_val) =
      a.max_val - a.min_val := max_eq_right (by linarith)
  rw [h1, h2]

/-- C9 amended: for every well-formed RangedValue `a` (ordered endpoints,
nonzero unit factor), `a - a` is `[0, 0]` iff `a.tolerance = 0`; its width
`max_val - min_val` is `4 * a.tolerance` (equivalently, the tolerance of
`a - a` is `2 * a.tolerance`), not `2 * a.tolerance`. -/
theorem c9_sub_self_width (a : RangedValue) (hf : a.unit.factor ≠ 0)
    (hord : a.min_val ≤ a.max_val) :
    ∀ d, RangedValue.subOp a (.rv a) = .ok d →
      ((d.min_val = 0 ∧ d.max_val = 0) ↔ a.tolerance = 0) ∧
      d.max_val - d.min_val = 4 * a.tolerance ∧
      d.tolerance = 2 * a.tolerance := by
  intro d hd
  rw [subOp_self_eq a hf hord] at hd
  have hde : d = ⟨a.unit, none, a.min_val - a.max_val, a.max_val - a.min_val⟩ :=
    (Except.ok.inj hd).symm
  subst hde
  refine ⟨?_, ?_, ?_⟩
  · show (a.min_val - a.max_val = 0 ∧ a.max_val - a.min_val = 0) ↔
      (a.max_val - a.min_val) / 2 = 0
    constructor
    · rintro ⟨h1, h2⟩
      linarith
    · intro h
      constructor <;> linarith
  · show (a.max_val - a.min_val) - (a.min_val - a.max_val) =
      4 * ((a.max_val - a.min_val) / 2)
    ring
  · show ((a.max_val - a.min_val) - (a.min_val - a.max_val)) / 2 =
      2 * ((a.max_val - a.min_val) / 2)
    ring

/-- Decomposition of a successful `Except` bind. -/
theorem bind_eq_ok {α β : Type} {x : Except Err α} {f : α → Except Err β} {b : β} :
    (x >>= f) = .ok b ↔ ∃ a, x = .ok a ∧ f a = .ok b := by
  cases x <;> simp [ok_bind, error_bind]

/-- Decomposition of a successful `Except.map`. -/
theorem map_eq_ok {α β : Type} {x : Except Err α} {f : α → β} {b : β} :
    x.map f = .ok b ↔ ∃ a, x = .ok a ∧ f a = b := by
  cases x <;> simp [Except.map]

/-- A key absent from an association list's key column has no lookup. -/
theorem lookup_none_of_not_memKeys {l : List (String × Numericish)} {k : String}
    (h : k ∉ l.map Prod.fst) : List.lookup k l = none := by
  induction l with
  | nil => rfl
  | cons hd tl ih =>
      obtain ⟨a, b⟩ := hd
      simp only [List.map_cons, List.mem_cons, not_or] at h
      rw [List.lookup_cons, show (k == a) = false by simp [h.1]]
      exact ih h.2

/-- A successful lookup witnesses key-column membership. -/
theorem memKeys_of_lookup_some {l : List (String × Numericish)} {k : String}
    {v : Numericish} (h : List.lookup k l = some v) : k ∈ l.map Prod.fst := by
  induction l with
  | nil => simp [List.lookup] at h
  | cons hd tl ih =>
      obtain ⟨a, b⟩ := hd
      rw [List.lookup_cons] at h
      by_cases hk : (k == a) = true
      · simp [List.map_cons, eq_of_beq hk]
      · rw [show (k == a) = false by simpa using hk] at h
        have h' : List.lookup k tl = some v := h
        simp [List.map_cons, ih h']

/-- `updateAssoc` adds (or keeps) exactly the written key. -/
theorem updateAssoc_memKeys (l : List (String × Numericish)) (k : String)
    (v : Numericish) (k' : String) :
    k' ∈ (updateAssoc l k v).map Prod.fst ↔ (k' = k ∨ k' ∈ l.map Prod.fst) := by
  induction l with
  | nil => simp [updateAssoc]
  | cons hd tl ih =>
      obtain ⟨a, b⟩ := hd
      unfold updateAssoc
      by_cases hk : (a == k) = true
      · rw [if_pos hk]
        have := eq_of_beq hk
        subst this
        simp only [List.map_cons, List.mem_cons]
        constructor
        · rintro (rfl | h)
          · exact Or.inl rfl
          · exact Or.inr (Or.inr h)
        · rintro (rfl | rfl | h)
          · exact Or.inl rfl
          · exact Or.inl rfl
          · exact Or.inr h
      · rw [if_neg hk]
        simp only [List.map_cons, List.mem_cons, ih]
        tauto

/-- When `k` has not been written into `simplified`, the chained context
lookup reads the pool. -/
theorem chainFind_of_not_simplified {st : SimpSt} {pool : Ctx} {k : String}
    (h : k ∉ st.simplified.map Prod.fst) :
    chainFind st pool k =
      (match List.lookup k pool with
       | some v => .ok v
       | none => .error .keyError) := by
  unfold chainFind
  rw [lookup_none_of_not_memKeys h]

/-- The simplifier-state invariant is preserved by `_visit`
(`poolVisit`/`poolVisitSyms`), the visited key ends up `touched`, and the
`touched` set only grows. -/
theorem poolVisit_inv (pool : Ctx) :
    ∀ fuel : Nat,
      (∀ (key : String) (stack : List String) (st : SimpSt)
          (out : Numericish × SimpSt),
        poolVisit pool fuel key stack st = .ok out → poolInv pool st →
        poolInv pool out.2 ∧ key ∈ out.2.touched ∧
          ∀ k ∈ st.touched, k ∈ out.2.touched) ∧
      (∀ (syms : List String) (stack : List String) (st : SimpSt)
          (out : List (String × Numericish) × SimpSt),
        poolVisitSyms pool fuel syms stack st = .ok out → poolInv pool st →
        poolInv pool out.2 ∧ ∀ k ∈ st.touched, k ∈ out.2.touched) := by
  intro fuel
  induction fuel with
  | zero =>
      constructor
      · intro key stack st out h
        simp [poolVisit] at h
      · intro syms stack st out h hinv
        match syms with
        | [] =>
            rw [show poolVisitSyms pool 0 [] stack st = .ok ([], st) from rfl] at h
            cases h
            exact ⟨hinv, fun k hk => hk⟩
        | s :: rest => simp [poolVisitSyms] at h
  | succ fuel ih =>
      obtain ⟨ihV, ihS⟩ := ih
      constructor
      · intro key stack st out h hinv
        rw [show poolVisit pool (fuel + 1) key stack st =
          (if stack.contains key then .error .circularDependency
           else if st.touched.contains key then (chainFind st pool key).map ((·, st))
           else do
             let value ← chainFind st pool key
             match value with
             | .num q => .ok (.num q, { st with touched := key :: st.touched })
             | .rv v => .ok (.rv v, { st with touched := key :: st.touched })
             | .expr e => do
                 let (subs, st1) ← poolVisitSyms pool fuel e.symbols (stack ++ [key]) st
                 let r ← Expression.substitute fuel e subs
                 .ok (r, ⟨key :: st1.touched, updateAssoc st1.simplified key r⟩)
             | .sym skey =>
                 if poolHas pool skey then do
                   let (r, st1) ← poolVisit pool fuel skey (stack ++ [key]) st
                   .ok (r, ⟨key :: st1.touched, updateAssoc st1.simplified key r⟩)
                 else
                   .ok (value, ⟨key :: st.touched, updateAssoc st.simplified key value⟩))
          from rfl] at h
        by_cases hstk : stack.contains key
        · rw [if_pos hstk] at h
          cases h
        · rw [if_neg hstk] at h
          by_cases htch : st.touched.contains key
          · rw [if_pos htch] at h
            obtain ⟨v, _, hout⟩ := map_eq_ok.mp h
            have hkt : key ∈ st.touched := List.elem_iff.mp htch
            subst hout
            exact ⟨hinv, hkt, fun k hk => hk⟩
          · rw [if_neg htch] at h
            have hnt : key ∉ st.touched := fun hm => htch (List.elem_iff.mpr hm)
            have hns : key ∉ st.simplified.map Prod.fst := fun hm =>
              hnt ((hinv key).mp hm).1
            obtain ⟨value, hcf, h⟩ := bind_eq_ok.mp h
            rw [chainFind_of_not_simplified hns] at hcf
            have hpool : List.lookup key pool = some value := by
              cases hlp : List.lookup key pool with
              | none => rw [hlp] at hcf; cases hcf
              | some v => rw [hlp] at hcf; cases hcf; rfl
            cases value with
            | num q =>
                cases h
                refine ⟨?_, by simp, fun k hk => by simp [hk]⟩
                intro k
                constructor
                · intro hks
                  have := (hinv k).mp hks
                  exact ⟨by simp [this.1], this.2⟩
                · rintro ⟨hkt, hkc⟩
                  rcases List.mem_cons.mp hkt with rfl | hkt'
                  · obtain ⟨w, hw, hwc⟩ := hkc
                    rw [hpool] at hw
                    cases hw
                    cases hwc
                  · exact (hinv k).mpr ⟨hkt', hkc⟩
            | rv v =>
                cases h
                refine ⟨?_, by simp, fun k hk => by simp [hk]⟩
                intro k
                constructor
                · intro hks
                  have := (hinv k).mp hks
                  exact ⟨by simp [this.1], this.2⟩
                · rintro ⟨hkt, hkc⟩
                  rcases List.mem_cons.mp hkt with rfl | hkt'
                  · obtain ⟨w, hw, hwc⟩ := hkc
                    rw [hpool] at hw
                    cases hw
                    cases hwc
                  · exact (hinv k).mpr ⟨hkt', hkc⟩
            | expr e =>
                obtain ⟨⟨subs, st1⟩, hsyms, h⟩ := bind_eq_ok.mp h
                obtain ⟨r, _, h⟩ := bind_eq_ok.mp h
                cases h
                obtain ⟨hinv1, hmono1⟩ := ihS e.symbols (stack ++ [key]) st
                  (subs, st1) hsyms hinv
                refine ⟨?_, by simp, fun k hk => by simp [hmono1 k hk]⟩
                intro k
                rw [show (⟨key :: st1.touched,
                  updateAssoc st1.simplified key r⟩ : SimpSt).simplified =
                  updateAssoc st1.simplified key r from rfl]
                rw [updateAssoc_memKeys]
                constructor
                · rintro (rfl | hks)
                  · exact ⟨by simp, .expr e, hpool, rfl⟩
                  · have := (hinv1 k).mp hks
                    exact ⟨by simp [this.1], this.2⟩
                · rintro ⟨hkt, hkc⟩
                  rcases List.mem_cons.mp hkt with rfl | hkt'
                  · exact Or.inl rfl
                  · exact Or.inr ((hinv1 k).mpr ⟨hkt', hkc⟩)
            | sym skey =>
                have h2 : (if poolHas pool skey then (do
                    let (r, st1) ← poolVisit pool fuel skey (stack ++ [key]) st
                    Except.ok (r, (⟨key :: st1.touched,
                      updateAssoc st1.simplified key r⟩ : SimpSt)))
                  else Except.ok (Numericish.sym skey,
                    (⟨key :: st.touched,
                      updateAssoc st.simplified key (Numericish.sym skey)⟩ : SimpSt))) =
                    Except.ok out := h
                by_cases hph : poolHas pool skey
                · rw [if_pos hph] at h2
                  obtain ⟨⟨r, st1⟩, hvis, h2⟩ := bind_eq_ok.mp h2
                  cases h2
                  obtain ⟨hinv1, _, hmono1⟩ := ihV skey (stack ++ [key]) st
                    (r, st1) hvis hinv
                  refine ⟨?_, by simp, fun k hk => by simp [hmono1 k hk]⟩
                  intro k
                  rw [show (⟨key :: st1.touched,
                    updateAssoc st1.simplified key r⟩ : SimpSt).simplified =
                    updateAssoc st1.simplified key r from rfl]
                  rw [updateAssoc_memKeys]
                  constructor
                  · rintro (rfl | hks)
                    · exact ⟨by simp, .sym skey, hpool, rfl⟩
                    · have := (hinv1 k).mp hks
                      exact ⟨by simp [this.1], this.2⟩
                  · rintro ⟨hkt, hkc⟩
                    rcases List.mem_cons.mp hkt with rfl | hkt'
                    · exact Or.inl rfl
                    · exact Or.inr ((hinv1 k).mpr ⟨hkt', hkc⟩)
                · rw [if_neg hph] at h2
                  cases h2
                  refine ⟨?_, by simp, fun k hk => by simp [hk]⟩
                  intro k
                  rw [show (⟨key :: st.touched,
                    updateAssoc st.simplified key (Numericish.sym skey)⟩ :
                      SimpSt).simplified =
                    updateAssoc st.simplified key (Numericish.sym skey) from rfl]
                  rw [updateAssoc_memKeys]
                  constructor
                  · rintro (rfl | hks)
                    · exact ⟨by simp, .sym skey, hpool, rfl⟩
                    · have := (hinv k).mp hks
                      exact ⟨by simp [this.1], this.2⟩
                  · rintro ⟨hkt, hkc⟩
                    rcases List.mem_cons.mp hkt with rfl | hkt'
                    · exact Or.inl rfl
                    · exact Or.inr ((hinv k).mpr ⟨hkt', hkc⟩)
      · intro syms stack st out h hinv
        match syms with
        | [] =>
            rw [show poolVisitSyms pool (fuel + 1) [] stack st = .ok ([], st)
              from rfl] at h
            cases h
            exact ⟨hinv, fun k hk => hk⟩
        | s :: rest =>
            rw [show poolVisitSyms pool (fuel + 1) (s :: rest) stack st =
              (if poolHas pool s then do
                let (v, st1) ← poolVisit pool fuel s stack st
                let (subs, st2) ← poolVisitSyms pool fuel rest stack st1
                .ok ((s, v) :: subs, st2)
              else poolVisitSyms pool fuel rest stack st) from rfl] at h
            by_cases hph : poolHas pool s
            · rw [if_pos hph] at h
              obtain ⟨⟨v, st1⟩, hvis, h⟩ := bind_eq_ok.mp h
              obtain ⟨⟨subs, st2⟩, hsyms, h⟩ := bind_eq_ok.mp h
              cases h
              obtain ⟨hinv1, _, hmono1⟩ := ihV s stack st (v, st1) hvis hinv
              obtain ⟨hinv2, hmono2⟩ := ihS rest stack st1 (subs, st2) hsyms hinv1
              exact ⟨hinv2, fun k hk => hmono2 k (hmono1 k hk)⟩
            · rw [if_neg hph] at h
              exact ihS rest stack st (out.1, out.2) (by simpa using h) hinv

/-- The driver loop preserves the invariant and touches every key it
visits. -/
theorem poolRun_inv (pool : Ctx) (fuel : Nat) :
    ∀ (keys : List String) (st : SimpSt) (out : SimpSt),
      poolRun pool fuel keys st = .ok out → poolInv pool st →
      poolInv pool out ∧ (∀ k ∈ keys, k ∈ out.touched) ∧
        ∀ k ∈ st.touched, k ∈ out.touched := by
  intro keys
  induction keys with
  | nil =>
      intro st out h hinv
      cases h
      exact ⟨hinv, by simp, fun k hk => hk⟩
  | cons x rest ih =>
      intro st out h hinv
      rw [show poolRun pool fuel (x :: rest) st =
        (do
          let (_, st1) ← poolVisit pool fuel x [] st
          poolRun pool fuel rest st1) from rfl] at h
      obtain ⟨⟨v, st1⟩, hvis, h⟩ := bind_eq_ok.mp h
      obtain ⟨hinv1, hx, hmono1⟩ := (poolVisit_inv pool fuel).1 x [] st (v, st1)
        hvis hinv
      obtain ⟨hinv2, hall, hmono2⟩ := ih st1 out h hinv1
      refine ⟨hinv2, ?_, fun k hk => hmono2 k (hmono1 k hk)⟩
      intro k hk
      rcases List.mem_cons.mp hk with rfl | hk'
      · exact hmono2 k hx
      · exact hall k hk'

/-- C4 amended: the mapping returned by a successful
`simplify_expression_pool` has as keys exactly the pool keys whose value is
callable (an Expression or a Symbol); keys bound to plain constants are
omitted from the output (they are only marked as visited). -/
theorem c4_output_keys_are_callable_pool_keys :
    ∀ (fuel : Nat) (pool : Ctx) (m : Ctx),
      simplify_expression_pool fuel pool = .ok m →
      ∀ k, k ∈ m.map Prod.fst ↔ callableAt pool k := by
  intro fuel pool m h k
  unfold simplify_expression_pool at h
  obtain ⟨st, hrun, hm⟩ := bind_eq_ok.mp h
  cases hm
  have hinv0 : poolInv pool ⟨[], []⟩ := by
    intro k'
    simp [poolInv, callableAt]
  obtain ⟨hinv, hall, _⟩ := poolRun_inv pool fuel (pool.map (·.1)) ⟨[], []⟩ st
    hrun hinv0
  constructor
  · intro hks
    exact ((hinv k).mp hks).2
  · intro hkc
    refine (hinv k).mpr ⟨?_, hkc⟩
    obtain ⟨v, hv, _⟩ := hkc
    exact hall k (memKeys_of_lookup_some hv)

/-- C4 witness: the pool `{"S": Symbol("T")}` (with `"T"` undefined)
simplifies successfully; its output keys are exactly the callable pool
keys. -/
theorem c4_witness :
    simplify_expression_pool 10 poolS = .ok [("S", Numericish.sym "T")] ∧
    (∀ k, k ∈ ([(("S" : String), Numericish.sym "T")] : Ctx).map Prod.fst ↔
      callableAt poolS k) :=
  ⟨rfl, c4_output_keys_are_callable_pool_keys 10 poolS
    [("S", Numericish.sym "T")] rfl⟩

/-- C2 witness: the amended ordering fact at the concrete directive list. -/
theorem c2_witness :
    ((replacements_deepest_first repsC2).map (fun r => r.2.1.length)).Sorted (· ≤ ·) ∧
    (replacements_deepest_first repsC2).Perm repsC2 :=
  c2_replacements_applied_shallowest_first repsC2

/-- C6 witness: the invariant at a concrete addition. -/
theorem c6_witness : invariantOk (RangedValue.addOp rv13 (.rv rv13)) :=
  c6_min_le_max_invariant.2.1 rv13 (.rv rv13)

/-- C9 witness: `a = RangedValue(1, 3)`. -/
theorem c9_witness :
    rv13.unit.factor ≠ 0 ∧ rv13.min_val ≤ rv13.max_val ∧
    RangedValue.subOp rv13 (.rv rv13) = .ok ⟨UNITLESS, none, -2, 2⟩ ∧
    ((((⟨UNITLESS, none, -2, 2⟩ : RangedValue).min_val = 0 ∧
        (⟨UNITLESS, none, -2, 2⟩ : RangedValue).max_val = 0) ↔ rv13.tolerance = 0) ∧
      (⟨UNITLESS, none, -2, 2⟩ : RangedValue).max_val -
        (⟨UNITLESS, none, -2, 2⟩ : RangedValue).min_val = 4 * rv13.tolerance ∧
      (⟨UNITLESS, none, -2, 2⟩ : RangedValue).tolerance = 2 * rv13.tolerance) :=
  ⟨by decide, by decide, rfl,
    c9_sub_self_width rv13 (by decide) (by decide) ⟨UNITLESS, none, -2, 2⟩ rfl⟩

end Atopile
